import Mathlib

/-!
Verification of the pyrepak binding (`src/pyrepak/__init__.py`) against its
specification. The Python wrapper classes (`RepakStream`, `PakBuilder`,
`PakReader`, `PakWriter`, `Version`) are embedded directly from the source.
The native archive engine (`repak_bind.dll`) is not part of the sources, so
its behaviour behind the C entry points (`pak_builder_*`, `pak_writer_*`,
`pak_reader_get`) is modelled from the spec where a claim depends on it;
each such definition carries a doc comment starting `Modelled from the spec`.
Bytes are modelled as `Nat` (values 0..255 in practice), byte strings as
`List Nat`, C `NULL` handles as `none : Option Nat`.
-/

/-- State of an in-memory `RepakStream` (lines 67-74 of the source):
`buffer` models the `bytearray`, `position` the integer cursor. -/
structure RepakStream where
  buffer : List Nat
  position : Nat
deriving DecidableEq, Repr

/-- Python bytearray slice assignment `buf[pos:pos+len(data)] = data`:
the slice (clamped to the buffer) is replaced by all of `data`, growing the
buffer when `pos + len(data)` exceeds its length. -/
def bytearraySliceAssign (buf : List Nat) (pos : Nat) (data : List Nat) : List Nat :=
  buf.take pos ++ data ++ buf.drop (pos + data.length)

/-- In-memory branch of `write_callback` (lines 98-119): append when the
cursor sits at the end, otherwise slice-assign and, if the write still
overhangs the (already grown) buffer, extend with the tail of `data`
(`data[-k:]` is `data.drop (data.length - k)`).  Returns the written length
and the updated stream. -/
def RepakStream.write_callback (s : RepakStream) (data : List Nat) : Int × RepakStream :=
  if s.position = s.buffer.length then
    ((data.length : Int), ⟨s.buffer ++ data, s.position + data.length⟩)
  else
    let buf1 := bytearraySliceAssign s.buffer s.position data
    let buf2 :=
      if s.position + data.length > buf1.length then
        buf1 ++ data.drop (data.length - (s.position + data.length - buf1.length))
      else buf1
    ((data.length : Int), ⟨buf2, s.position + data.length⟩)

/-- Tail of the in-memory branch of `seek_callback` (lines 143-151): a
negative resolved position is an error (`-1`, state untouched); a position
past the end zero-extends the buffer; otherwise just move the cursor. -/
def RepakStream.applySeek (s : RepakStream) (newPos : Int) : Int × RepakStream :=
  if newPos < 0 then (-1, s)
  else
    let np := newPos.toNat
    let buf :=
      if np > s.buffer.length then s.buffer ++ List.replicate (np - s.buffer.length) 0
      else s.buffer
    ((np : Int), ⟨buf, np⟩)

/-- In-memory branch of `seek_callback` (lines 132-151): resolve the target
against origin `whence` (0 = Start, 1 = Current, 2 = End); any other origin
is an error (`-1`, state untouched). -/
def RepakStream.seek_callback (s : RepakStream) (offset whence : Int) : Int × RepakStream :=
  if whence = 0 then s.applySeek offset
  else if whence = 1 then s.applySeek ((s.position : Int) + offset)
  else if whence = 2 then s.applySeek ((s.buffer.length : Int) + offset)
  else (-1, s)

/-- Absolute position a seek resolves to, `none` for an unrecognized origin;
spec-side restatement of the dispatch in `seek_callback`. -/
def seekTarget (s : RepakStream) (offset whence : Int) : Option Int :=
  if whence = 0 then some offset
  else if whence = 1 then some ((s.position : Int) + offset)
  else if whence = 2 then some ((s.buffer.length : Int) + offset)
  else none

/-- Result of a Python method call: either an exception was raised or a
value was returned. -/
inductive PyOutcome (α : Type) where
  | raised (msg : String)
  | returns (val : α)
deriving DecidableEq, Repr

/-- Integer values of the `Version` constants class (lines 368-380). -/
def Version.V1 : Nat := 1

/-- Version constant `V2`. -/
def Version.V2 : Nat := 2

/-- Version constant `V3`. -/
def Version.V3 : Nat := 3

/-- Version constant `V4`. -/
def Version.V4 : Nat := 4

/-- Version constant `V5`. -/
def Version.V5 : Nat := 5

/-- Version constant `V6`. -/
def Version.V6 : Nat := 6

/-- Version constant `V7`. -/
def Version.V7 : Nat := 7

/-- Version constant `V8A`. -/
def Version.V8A : Nat := 8

/-- Version constant `V8B`. -/
def Version.V8B : Nat := 9

/-- Version constant `V9`. -/
def Version.V9 : Nat := 10

/-- Version constant `V10`. -/
def Version.V10 : Nat := 11

/-- Version constant `V11`. -/
def Version.V11 : Nat := 12

/-- The `Version` enum values in declaration order (names V1..V11, with V8
split into V8A/V8B), as declared both in the Python constants class and in
the `ffi.cdef` enum. -/
def versionValues : List Nat :=
  [Version.V1, Version.V2, Version.V3, Version.V4, Version.V5, Version.V6,
   Version.V7, Version.V8A, Version.V8B, Version.V9, Version.V10, Version.V11]

/-- Modelled from the spec: `pak_builder_key` of the native engine, missing
from the sources.  A configuration call on a live builder handle returns a
fresh handle (the old one is invalidated); a `NULL` handle yields `NULL`. -/
def pak_builder_key (b : Option Nat) (key : List Nat) : Option Nat :=
  b.map (· + 1)

/-- Modelled from the spec: `pak_builder_compression` of the native engine,
missing from the sources.  Same handle discipline as `pak_builder_key`. -/
def pak_builder_compression (b : Option Nat) (cl : List Nat) : Option Nat :=
  b.map (· + 1)

/-- Modelled from the spec: `pak_builder_reader` of the native engine,
missing from the sources.  A live builder yields a reader handle, `NULL`
yields `NULL`. -/
def pak_builder_reader (b : Option Nat) : Option Nat :=
  b.map (· + 1)

/-- Modelled from the spec: `pak_builder_writer` of the native engine,
missing from the sources.  A live builder yields a writer handle, `NULL`
yields `NULL`. -/
def pak_builder_writer (b : Option Nat) (version : Nat) (mount : List Nat)
    (seed : Nat) : Option Nat :=
  b.map (· + 1)

/-- Modelled from the spec: `pak_writer_write_file` of the native engine,
missing from the sources.  Returns 0 on success; a consumed (`NULL`) writer
handle is the fatal `WriterConsumed` condition, reported as a nonzero
status. -/
def pak_writer_write_file (w : Option Nat) (path data : List Nat) : Int :=
  match w with
  | some _ => 0
  | none => 1

/-- Modelled from the spec: `pak_writer_write_index` of the native engine,
missing from the sources.  Returns 0 on success; a consumed (`NULL`) writer
handle is the fatal `WriterConsumed` condition, reported as a nonzero
status. -/
def pak_writer_write_index (w : Option Nat) : Int :=
  match w with
  | some _ => 0
  | none => 1

/-- The `PakBuilder` wrapper (lines 191-256): holds the C builder handle,
`none` models `ffi.NULL` (a consumed builder). -/
structure PakBuilder where
  builder : Option Nat
deriving DecidableEq, Repr

/-- The `PakReader` wrapper (lines 259-261). -/
structure PakReader where
  reader : Option Nat
deriving DecidableEq, Repr

/-- The `PakWriter` wrapper (lines 334-336). -/
structure PakWriter where
  writer : Option Nat
deriving DecidableEq, Repr

/-- Method `PakBuilder.key` (lines 202-216): raise `ValueError` before any
mutation when the key is not exactly 32 bytes; otherwise call the engine,
raise on `NULL`, else install the returned handle and return `self`.
The first component is the post-state of `self`, the second the raised
exception or returned value. -/
def PakBuilder.key (self : PakBuilder) (key_bytes : List Nat) :
    PakBuilder × PyOutcome PakBuilder :=
  if key_bytes.length ≠ 32 then (self, .raised "Key must be exactly 32 bytes")
  else
    match pak_builder_key self.builder key_bytes with
    | none => (self, .raised "Failed to set key")
    | some nb => (⟨some nb⟩, .returns ⟨some nb⟩)

/-- Method `PakBuilder.compression` (lines 218-227): call the engine, raise
on `NULL`, else install the returned handle and return `self`. -/
def PakBuilder.compression (self : PakBuilder) (compression_list : List Nat) :
    PakBuilder × PyOutcome PakBuilder :=
  match pak_builder_compression self.builder compression_list with
  | none => (self, .raised "Failed to set compression")
  | some nb => (⟨some nb⟩, .returns ⟨some nb⟩)

/-- Method `PakBuilder.reader` (lines 229-238): obtain a reader handle from
the engine, raise on `NULL`, else null out the builder handle (the builder
is consumed) and return the new `PakReader`. -/
def PakBuilder.reader (self : PakBuilder) : PakBuilder × PyOutcome PakReader :=
  match pak_builder_reader self.builder with
  | none => (self, .raised "Failed to create reader")
  | some r => (⟨none⟩, .returns ⟨some r⟩)

/-- Method `PakBuilder.writer` (lines 240-256): obtain a writer handle from
the engine, raise on `NULL`, else null out the builder handle (the builder
is consumed) and return the new `PakWriter`. -/
def PakBuilder.writer (self : PakBuilder) (version : Nat) (mount : List Nat)
    (seed : Nat) : PakBuilder × PyOutcome PakWriter :=
  match pak_builder_writer self.builder version mount seed with
  | none => (self, .raised "Failed to create writer")
  | some w => (⟨none⟩, .returns ⟨some w⟩)

/-- Method `PakWriter.write_file` (lines 343-351): call the engine, raise
`RuntimeError` on a nonzero status, else return `True`. -/
def PakWriter.write_file (self : PakWriter) (path data : List Nat) :
    PakWriter × PyOutcome Bool :=
  if pak_writer_write_file self.writer path data ≠ 0 then
    (self, .raised "Failed to write file")
  else (self, .returns true)

/-- Method `PakWriter.write_index` (lines 353-359): call the engine, raise
`RuntimeError` on a nonzero status, else null out the writer handle (the
writer is consumed past finalization) and return `True`. -/
def PakWriter.write_index (self : PakWriter) : PakWriter × PyOutcome Bool :=
  if pak_writer_write_index self.writer ≠ 0 then
    (self, .raised "Failed to write index")
  else (⟨none⟩, .returns true)

/-- Little-endian base-256 encoding of `n` on `k` bytes. -/
def leBytes : Nat → Nat → List Nat
  | 0, _ => []
  | k + 1, n => n % 256 :: leBytes k (n / 256)

/-- Little-endian base-256 decoding of a byte list. -/
def deBytes : List Nat → Nat
  | [] => 0
  | b :: bs => b + 256 * deBytes bs

/-- A fixed-width 64-bit little-endian integer field, the fixed byte order
the format uses for all multi-byte integers. -/
def le64 (n : Nat) : List Nat :=
  leBytes 8 n

/-- Modelled from the spec: state of a native writer handle behind
`pak_writer_*` (the engine is missing from the sources).  Payload bytes are
appended to the bound stream immediately; only descriptors
(path, offset, stored length) are buffered for the index. -/
structure EngineWriter where
  stream : List Nat
  index : List (List Nat × Nat × Nat)
deriving DecidableEq, Repr

/-- Modelled from the spec: one `writeFile` step of the engine with
`compression = none` and no encryption — reject a duplicate path, else
append the payload at the current append cursor and record its
descriptor. -/
def engineWriteFile (w : EngineWriter) (path data : List Nat) :
    Except String EngineWriter :=
  if path ∈ w.index.map (fun e => e.1) then .error "DuplicatePath"
  else .ok ⟨w.stream ++ data, w.index ++ [(path, w.stream.length, data.length)]⟩

/-- Fold of `engineWriteFile` over a list of (path, payload) pairs,
stopping at the first error, as the Python caller would by raising. -/
def engineWriteFiles : EngineWriter → List (List Nat × List Nat) →
    Except String EngineWriter
  | w, [] => .ok w
  | w, (p, d) :: es =>
    match engineWriteFile w p d with
    | .ok w' => engineWriteFiles w' es
    | .error e => .error e

/-- Encoded index record of one entry: length-prefixed path, then 64-bit
offset and stored length. -/
def encodeEntry (e : List Nat × Nat × Nat) : List Nat :=
  le64 e.1.length ++ e.1 ++ le64 e.2.1 ++ le64 e.2.2

/-- Concatenated index records. -/
def encodeEntries : List (List Nat × Nat × Nat) → List Nat
  | [] => []
  | e :: es => encodeEntry e ++ encodeEntries es

/-- Modelled from the spec: index decoding of `count` records (the engine's
index codec is missing from the sources).  Reads a 64-bit path length, the
path, and the 64-bit offset and length fields, returning the records and
the unconsumed remainder; corruption checking is not modelled (the
round-trip claim only exercises intact archives). -/
def parseEntries : Nat → List Nat → List (List Nat × Nat × Nat) × List Nat
  | 0, bs => ([], bs)
  | c + 1, bs =>
    let plen := deBytes (bs.take 8)
    let path := (bs.drop 8).take plen
    let off := deBytes ((bs.drop (8 + plen)).take 8)
    let len := deBytes ((bs.drop (16 + plen)).take 8)
    let rest := parseEntries c (bs.drop (24 + plen))
    ((path, off, len) :: rest.1, rest.2)

/-- Modelled from the spec: `writeIndex` — append the encoded index after
the payload bytes, then a footer carrying the index offset and the entry
count, yielding the final archive bytes. -/
def engineWriteIndex (w : EngineWriter) : List Nat :=
  w.stream ++ encodeEntries w.index ++ le64 w.stream.length ++ le64 w.index.length

/-- Whole writing pipeline of the claim: `write_file` each pair on a fresh
writer, then `write_index`; the archive bytes on success. -/
def writeArchive (entries : List (List Nat × List Nat)) : Except String (List Nat) :=
  (engineWriteFiles ⟨[], []⟩ entries).map engineWriteIndex

/-- Modelled from the spec: index decoding at reader-open time — read the
index offset and entry count from the 16-byte footer and parse the index
records there. -/
def decodeIndex (archive : List Nat) : List (List Nat × Nat × Nat) :=
  let indexOffset := deBytes ((archive.drop (archive.length - 16)).take 8)
  let count := deBytes ((archive.drop (archive.length - 8)).take 8)
  (parseEntries count (archive.drop indexOffset)).1

/-- Outcome of the native `pak_reader_get` call as the Python wrapper
observes it. -/
inductive EngineGetOutcome where
  | found (data : List Nat)
  | notFound
  | corruptData
deriving DecidableEq, Repr

/-- Modelled from the spec: the engine's `get` — exact, case-sensitive path
lookup in the decoded index, then reading exactly the recorded byte range
(compression `none`, no encryption; the checksum of an intact archive
verifies, corruption is modelled separately as
`EngineGetOutcome.corruptData`). -/
def engineGet (descs : List (List Nat × Nat × Nat)) (archive p : List Nat) :
    EngineGetOutcome :=
  match descs.find? (fun e => decide (e.1 = p)) with
  | some e => .found ((archive.drop e.2.1).take e.2.2)
  | none => .notFound

/-- Modelled from the spec: the C result convention of `pak_reader_get` —
status 0 with a buffer on success, status 0 with a `NULL` buffer for the
benign path-not-found, a distinct nonzero status for the fatal
`CorruptData` (checksum mismatch after decode). -/
def pak_reader_get (o : EngineGetOutcome) : Int × Option (List Nat) :=
  match o with
  | .found d => (0, some d)
  | .notFound => (0, none)
  | .corruptData => (1, none)

/-- Method `PakReader.get` (lines 281-309) downstream of the engine call:
a nonzero status prints a message and returns `None` (no exception is
raised); a `NULL` buffer returns `None`; otherwise the buffer's bytes are
returned. -/
def pyGet (o : EngineGetOutcome) : PyOutcome (Option (List Nat)) :=
  let rb := pak_reader_get o
  if rb.1 ≠ 0 then .returns none
  else
    match rb.2 with
    | none => .returns none
    | some data => .returns (some data)

/-- End-to-end `get` on a fresh reader over given archive bytes: decode the
index at open time, look the path up, run the Python wrapper's result
handling. -/
def readerGet (archive p : List Nat) : PyOutcome (Option (List Nat)) :=
  pyGet (engineGet (decodeIndex archive) archive p)

/-- Index descriptors for payloads laid out sequentially from byte offset
`off`: spec-side characterization of the writer's accumulated index. -/
def entriesToDescs (off : Nat) : List (List Nat × List Nat) →
    List (List Nat × Nat × Nat)
  | [] => []
  | (p, d) :: es => (p, off, d.length) :: entriesToDescs (off + d.length) es

/-- Archive bytes the pipeline produces for a given entry list: payload
bytes in write order, the encoded index, and the footer. -/
def archiveBytes (entries : List (List Nat × List Nat)) : List Nat :=
  let body := (entries.map Prod.snd).flatten
  let descs := entriesToDescs 0 entries
  body ++ encodeEntries descs ++ le64 body.length ++ le64 descs.length

/-- Decidable equality for `Except`, needed to evaluate pipeline results on
concrete inputs. -/
instance exceptDecEq {ε α : Type} [DecidableEq ε] [DecidableEq α] :
    DecidableEq (Except ε α) := fun a b =>
  match a, b with
  | .ok x, .ok y =>
    if h : x = y then .isTrue (by rw [h]) else .isFalse (by simp [h])
  | .error x, .error y =>
    if h : x = y then .isTrue (by rw [h]) else .isFalse (by simp [h])
  | .ok _, .error _ => .isFalse (by simp)
  | .error _, .ok _ => .isFalse (by simp)

/-- Encoding on `k` bytes yields exactly `k` bytes. -/
theorem leBytes_length (k : Nat) : ∀ n, (leBytes k n).length = k := by
  induction k with
  | zero => intro n; rfl
  | succ k ih => intro n; simp [leBytes, ih]

/-- A 64-bit field is 8 bytes long. -/
theorem le64_length (n : Nat) : (le64 n).length = 8 :=
  leBytes_length 8 n

/-- Decoding inverts encoding up to the field width. -/
theorem deBytes_leBytes (k : Nat) : ∀ n, deBytes (leBytes k n) = n % 256 ^ k := by
  induction k with
  | zero => intro n; simp [leBytes, deBytes, Nat.mod_one]
  | succ k ih =>
    intro n
    rw [leBytes, deBytes, ih, pow_succ', Nat.mod_mul]

/-- Decoding inverts a 64-bit field for in-range values. -/
theorem deBytes_le64 {n : Nat} (h : n < 2 ^ 64) : deBytes (le64 n) = n := by
  have h8 : (256 : Nat) ^ 8 = 2 ^ 64 := by norm_num
  rw [le64, deBytes_leBytes, h8, Nat.mod_eq_of_lt h]

/-- Slice assignment never shrinks the buffer: for an in-bounds cursor the
result has length `max` of old length and end of the written range. -/
theorem bytearraySliceAssign_length (buf : List Nat) (pos : Nat) (data : List Nat)
    (h : pos ≤ buf.length) :
    (bytearraySliceAssign buf pos data).length = max buf.length (pos + data.length) := by
  simp [bytearraySliceAssign]
  omega

/-- With an in-bounds cursor, `write_callback` is exactly slice assignment
plus cursor advance (both source branches agree, and the overhang re-extend
inside the else branch is dead because slice assignment already grew the
buffer). -/
theorem write_callback_eq (s : RepakStream) (data : List Nat)
    (h : s.position ≤ s.buffer.length) :
    s.write_callback data =
      ((data.length : Int),
       ⟨bytearraySliceAssign s.buffer s.position data, s.position + data.length⟩) := by
  obtain ⟨buf, pos⟩ := s
  simp only [RepakStream.write_callback]
  by_cases hp : pos = buf.length
  · simp only [hp, if_pos rfl]
    simp [bytearraySliceAssign, List.drop_eq_nil_of_le]
  · simp only [if_neg hp]
    have hlen := bytearraySliceAssign_length buf pos data (by simpa using h)
    have hif : ¬ pos + data.length > (bytearraySliceAssign buf pos data).length := by
      simp only [hlen]
      omega
    simp [hif]

/-- C9: on an in-memory stream, a successful write of `n` bytes at cursor
`p` returns `n`, afterwards the bytes at `[p, p+n)` are exactly `data`, the
buffer length is `max` of the old length and `p+n`, the bytes before `p`
and from `p+n` on are unchanged, and the cursor advances to `p+n` — both
in the append case `p = length` and in the overwrite-past-end case. -/
theorem write_callback_correct (s : RepakStream) (data : List Nat)
    (h : s.position ≤ s.buffer.length) :
    (s.write_callback data).1 = (data.length : Int) ∧
    ((s.write_callback data).2.buffer.drop s.position).take data.length = data ∧
    (s.write_callback data).2.buffer.length = max s.buffer.length (s.position + data.length) ∧
    (s.write_callback data).2.buffer.take s.position = s.buffer.take s.position ∧
    (s.write_callback data).2.buffer.drop (s.position + data.length) =
      s.buffer.drop (s.position + data.length) ∧
    (s.write_callback data).2.position = s.position + data.length := by
  obtain ⟨buf, pos⟩ := s
  have h' : pos ≤ buf.length := h
  rw [write_callback_eq ⟨buf, pos⟩ data h]
  have htake : (buf.take pos).length = pos := by
    simp
    omega
  refine ⟨rfl, ?_, ?_, ?_, ?_, rfl⟩
  · show ((buf.take pos ++ data ++ buf.drop (pos + data.length)).drop pos).take
      data.length = data
    rw [List.append_assoc, List.drop_left' htake, List.take_left]
  · exact bytearraySliceAssign_length buf pos data h'
  · show (buf.take pos ++ data ++ buf.drop (pos + data.length)).take pos =
      buf.take pos
    rw [List.append_assoc, List.take_left' htake]
  · show (buf.take pos ++ data ++ buf.drop (pos + data.length)).drop
      (pos + data.length) = buf.drop (pos + data.length)
    rw [List.drop_left']
    simp
    omega

/-- C9 witness: overwrite two bytes into the middle of a four-byte buffer
past its end. -/
theorem write_callback_correct_witness :
    ((2 : Nat) ≤ ([0, 1, 2, 3] : List Nat).length) ∧
    (RepakStream.write_callback ⟨[0, 1, 2, 3], 2⟩ [7, 8, 9]).2.buffer.length = 5 :=
  ⟨by decide,
   by
    have hw := (write_callback_correct ⟨[0, 1, 2, 3], 2⟩ [7, 8, 9] (by decide)).2.2.1
    simpa using hw⟩

/-- When the origin is recognized, `seek_callback` hands the resolved
target to the common tail. -/
theorem seek_callback_eq_applySeek (s : RepakStream) (offset whence t : Int)
    (ht : seekTarget s offset whence = some t) :
    s.seek_callback offset whence = s.applySeek t := by
  unfold seekTarget at ht
  split at ht
  next h =>
    injection ht with h'
    subst h'
    simp [RepakStream.seek_callback, h]
  next h =>
    split at ht
    next h1 =>
      injection ht with h'
      subst h'
      simp [RepakStream.seek_callback, h, h1]
    next h1 =>
      split at ht
      next h2 =>
        injection ht with h'
        subst h'
        simp [RepakStream.seek_callback, h, h1, h2]
      next h2 => exact Option.noConfusion ht

/-- C7: a seek whose resolved absolute target is negative returns `-1` and
leaves the buffer and position untouched, and an unrecognized origin value
likewise returns `-1` with the state untouched. -/
theorem seek_callback_error (s : RepakStream) (offset whence : Int) :
    (∀ t, seekTarget s offset whence = some t → t < 0 →
      s.seek_callback offset whence = (-1, s)) ∧
    (seekTarget s offset whence = none → s.seek_callback offset whence = (-1, s)) := by
  constructor
  · intro t ht hlt
    rw [seek_callback_eq_applySeek s offset whence t ht]
    simp [RepakStream.applySeek, hlt]
  · intro ht
    unfold seekTarget at ht
    split at ht
    next => exact Option.noConfusion ht
    next =>
      split at ht
      next => exact Option.noConfusion ht
      next =>
        split at ht
        next => exact Option.noConfusion ht
        next => simp [RepakStream.seek_callback, *]

/-- C7 witness: seeking to `-5` from the start and seeking with origin `3`
both fail without touching the stream. -/
theorem seek_callback_error_witness :
    RepakStream.seek_callback ⟨[1], 0⟩ (-5) 0 = (-1, ⟨[1], 0⟩) ∧
    RepakStream.seek_callback ⟨[1], 0⟩ 0 3 = (-1, ⟨[1], 0⟩) :=
  ⟨(seek_callback_error ⟨[1], 0⟩ (-5) 0).1 (-5) (by decide) (by decide),
   (seek_callback_error ⟨[1], 0⟩ 0 3).2 (by decide)⟩

/-- C10: seeking to a non-negative target strictly past the end of the
buffer is not an error: the buffer is zero-extended to the target, the
position is set to it, and the call returns the new absolute position. -/
theorem seek_beyond_end_extends (s : RepakStream) (offset whence t : Int)
    (ht : seekTarget s offset whence = some t) (h0 : 0 ≤ t)
    (hgt : s.buffer.length < t.toNat) :
    s.seek_callback offset whence =
      ((t.toNat : Int),
       ⟨s.buffer ++ List.replicate (t.toNat - s.buffer.length) 0, t.toNat⟩) := by
  rw [seek_callback_eq_applySeek s offset whence t ht]
  have hneg : ¬ t < 0 := by omega
  simp [RepakStream.applySeek, hneg, hgt]

/-- C10 witness: seeking to 3 in a one-byte stream zero-extends it. -/
theorem seek_beyond_end_extends_witness :
    RepakStream.seek_callback ⟨[1], 0⟩ 3 0 = (3, ⟨[1, 0, 0], 3⟩) :=
  (seek_beyond_end_extends ⟨[1], 0⟩ 3 0 3 (by decide) (by decide)
    (by decide)).trans (by decide)

/-- C4: `PakBuilder.key` rejects any key whose length is not 32 bytes with
a `ValueError` raised before any mutation, leaving the builder unchanged;
a 32-byte key is accepted, the internal handle is replaced by the engine's
new one, and the updated builder is returned. -/
theorem key_length_check (s : PakBuilder) (key_bytes : List Nat) (h : Nat)
    (hs : s.builder = some h) :
    (key_bytes.length ≠ 32 →
      s.key key_bytes = (s, .raised "Key must be exactly 32 bytes")) ∧
    (key_bytes.length = 32 →
      s.key key_bytes = (⟨some (h + 1)⟩, .returns ⟨some (h + 1)⟩)) := by
  constructor
  · intro hk
    simp [PakBuilder.key, hk]
  · intro hk
    simp [PakBuilder.key, hk, pak_builder_key, hs]

/-- C4 witness: a 31-byte key is rejected without touching the builder, a
32-byte key is accepted and updates the handle. -/
theorem key_length_check_witness :
    PakBuilder.key ⟨some 0⟩ (List.replicate 31 0) =
      (⟨some 0⟩, .raised "Key must be exactly 32 bytes") ∧
    PakBuilder.key ⟨some 0⟩ (List.replicate 32 0) =
      (⟨some 1⟩, .returns ⟨some 1⟩) :=
  ⟨(key_length_check ⟨some 0⟩ (List.replicate 31 0) 0 rfl).1 (by decide),
   (key_length_check ⟨some 0⟩ (List.replicate 32 0) 0 rfl).2 (by decide)⟩

/-- C5: `write_index` on a live writer succeeds and nulls the handle
(Finalized), and any subsequent `write_file` or `write_index` on the
consumed writer raises (the engine reports the fatal `WriterConsumed`
condition as a nonzero status) without resurrecting the handle. -/
theorem writer_single_use (w : PakWriter) (h : Nat) (hw : w.writer = some h)
    (p d : List Nat) :
    (w.write_index).2 = .returns true ∧
    (w.write_index).1.writer = none ∧
    ((w.write_index).1.write_file p d).2 = .raised "Failed to write file" ∧
    ((w.write_index).1.write_index).2 = .raised "Failed to write index" ∧
    ((w.write_index).1.write_file p d).1 = (w.write_index).1 ∧
    ((w.write_index).1.write_index).1 = (w.write_index).1 := by
  obtain ⟨wr⟩ := w
  cases hw
  exact ⟨rfl, rfl, rfl, rfl, rfl, rfl⟩

/-- C5 witness: concrete single-use run of a writer. -/
theorem writer_single_use_witness :
    ((PakWriter.mk (some 0)).write_index).2 = .returns true ∧
    ((PakWriter.mk (some 0)).write_index).1.writer = none ∧
    (((PakWriter.mk (some 0)).write_index).1.write_file [1] [2]).2 =
      .raised "Failed to write file" ∧
    (((PakWriter.mk (some 0)).write_index).1.write_index).2 =
      .raised "Failed to write index" ∧
    (((PakWriter.mk (some 0)).write_index).1.write_file [1] [2]).1 =
      ((PakWriter.mk (some 0)).write_index).1 ∧
    (((PakWriter.mk (some 0)).write_index).1.write_index).1 =
      ((PakWriter.mk (some 0)).write_index).1 :=
  writer_single_use ⟨some 0⟩ 0 rfl [1] [2]

/-- C6: the `Version` enum names V1..V11 map onto exactly the closed
integer range 1..12, with version 8 split into V8A = 8 and V8B = 9, so
integer version 11 is carried by the name V10 and 12 by V11. -/
theorem version_enum_range :
    versionValues = (List.range 12).map (· + 1) ∧
    Version.V1 = 1 ∧ Version.V2 = 2 ∧ Version.V3 = 3 ∧ Version.V4 = 4 ∧
    Version.V5 = 5 ∧ Version.V6 = 6 ∧ Version.V7 = 7 ∧ Version.V8A = 8 ∧
    Version.V8B = 9 ∧ Version.V9 = 10 ∧ Version.V10 = 11 ∧
    Version.V11 = 12 := by
  decide

/-- C8: once `reader` or `writer` succeeds the builder handle is nulled
(consumed) and every further call through it raises; the configuration
calls `key` and `compression` replace the internal handle with the engine's
newly returned one and hand back the updated builder. -/
theorem builder_consumed (b : PakBuilder) (h : Nat) (hb : b.builder = some h)
    (k cl mp : List Nat) (v seed : Nat) :
    ((b.reader).1.builder = none ∧ (b.reader).2 = .returns ⟨some (h + 1)⟩) ∧
    ((b.writer v mp seed).1.builder = none ∧
      (b.writer v mp seed).2 = .returns ⟨some (h + 1)⟩) ∧
    (∀ c : PakBuilder, c.builder = none →
      (∃ m, (c.key k).2 = PyOutcome.raised m) ∧
      (c.compression cl).2 = .raised "Failed to set compression" ∧
      (c.reader).2 = .raised "Failed to create reader" ∧
      (c.writer v mp seed).2 = .raised "Failed to create writer") ∧
    (k.length = 32 → b.key k = (⟨some (h + 1)⟩, .returns ⟨some (h + 1)⟩)) ∧
    b.compression cl = (⟨some (h + 1)⟩, .returns ⟨some (h + 1)⟩) := by
  obtain ⟨hb'⟩ := b
  cases hb
  refine ⟨⟨rfl, rfl⟩, ⟨rfl, rfl⟩, ?_, ?_, rfl⟩
  · rintro ⟨c⟩ hc
    cases hc
    refine ⟨?_, rfl, rfl, rfl⟩
    by_cases hk : k.length = 32
    · exact ⟨"Failed to set key", by simp [PakBuilder.key, hk, pak_builder_key]⟩
    · exact ⟨"Key must be exactly 32 bytes", by simp [PakBuilder.key, hk]⟩
  · intro hk
    simp [PakBuilder.key, hk, pak_builder_key]

/-- C8 witness: a fresh builder is consumed by `reader`; a consumed builder
rejects `compression`; a live builder's `compression` hands back the
updated handle. -/
theorem builder_consumed_witness :
    ((PakBuilder.mk (some 0)).reader).1.builder = none ∧
    ((PakBuilder.mk none).compression []).2 = .raised "Failed to set compression" ∧
    (PakBuilder.mk (some 0)).compression [] = (⟨some 1⟩, .returns ⟨some 1⟩) :=
  have H := builder_consumed ⟨some 0⟩ 0 rfl (List.replicate 32 0) [] [] 12 0
  ⟨H.1.1, (H.2.2.1 ⟨none⟩ rfl).2.1, H.2.2.2.2⟩

/-- C2: on an opened reader, `get` returns the entry's bytes when an entry
with the exact (case-sensitive) path exists in the index, and returns the
benign non-raised `None` when no such entry exists. -/
theorem get_present_or_absent (descs : List (List Nat × Nat × Nat))
    (archive p : List Nat) :
    (∀ e, descs.find? (fun x => decide (x.1 = p)) = some e →
      pyGet (engineGet descs archive p) =
        .returns (some ((archive.drop e.2.1).take e.2.2))) ∧
    ((∀ e ∈ descs, e.1 ≠ p) →
      pyGet (engineGet descs archive p) = .returns none) := by
  constructor
  · intro e he
    simp [engineGet, he, pyGet, pak_reader_get]
  · intro hne
    have hfind : descs.find? (fun x => decide (x.1 = p)) = none := by
      rw [List.find?_eq_none]
      intro x hx
      simpa using hne x hx
    simp [engineGet, hfind, pyGet, pak_reader_get]

/-- C2 witness: a one-entry index serves its path and answers `None` for a
missing path. -/
theorem get_present_or_absent_witness :
    pyGet (engineGet [([1], 0, 2)] [5, 6, 7] [1]) = .returns (some [5, 6]) ∧
    pyGet (engineGet [([1], 0, 2)] [5, 6, 7] [2]) = .returns none :=
  ⟨((get_present_or_absent [([1], 0, 2)] [5, 6, 7] [1]).1 ([1], 0, 2)
      (by decide)).trans (by decide),
   (get_present_or_absent [([1], 0, 2)] [5, 6, 7] [2]).2 (by decide)⟩

/-- C3 counterexample: when the engine reports the checksum-mismatch
condition, the Python `get` produces exactly the same non-raised `None` as
the benign path-not-found — the claimed distinct fatal error surfaced to
the caller does not exist at this input. -/
theorem corrupt_conflated_counterexample :
    pyGet EngineGetOutcome.corruptData = pyGet EngineGetOutcome.notFound ∧
    pyGet EngineGetOutcome.corruptData = .returns none := by
  decide

/-- C3 amended: on checksum mismatch the engine reports a nonzero status
distinct from the not-found convention, and the Python `get` never returns
the decoded data — but it maps the failure to `None`, the same value as
path-not-found, raising nothing. -/
theorem corrupt_returns_none :
    (pak_reader_get EngineGetOutcome.corruptData).1 = 1 ∧
    (pak_reader_get EngineGetOutcome.notFound).1 = 0 ∧
    pyGet EngineGetOutcome.corruptData = .returns none ∧
    pyGet EngineGetOutcome.notFound = .returns none := by
  decide

/-- Taking 8 bytes of a 64-bit field is the whole field. -/
theorem take8_le64 (n : Nat) : (le64 n).take 8 = le64 n := by
  rw [show (8 : Nat) = (le64 n).length from (le64_length n).symm, List.take_length]

/-- The accumulated index has one descriptor per written entry. -/
theorem entriesToDescs_length (es : List (List Nat × List Nat)) :
    ∀ off, (entriesToDescs off es).length = es.length := by
  induction es with
  | nil => intro off; rfl
  | cons e es ih =>
    intro off
    obtain ⟨p, d⟩ := e
    simp [entriesToDescs, ih]

/-- Every descriptor of a sequential layout starting at `off` carries the
path and payload length of one written entry, an offset within
`off + totalPayload` and a length within the total payload. -/
theorem mem_entriesToDescs (es : List (List Nat × List Nat)) :
    ∀ (off : Nat) (e : List Nat × Nat × Nat), e ∈ entriesToDescs off es →
    (∃ pd ∈ es, e.1 = pd.1 ∧ e.2.2 = pd.2.length) ∧
    e.2.1 ≤ off + ((es.map Prod.snd).flatten).length ∧
    e.2.2 ≤ ((es.map Prod.snd).flatten).length := by
  induction es with
  | nil =>
    intro off e he
    simp [entriesToDescs] at he
  | cons x es ih =>
    intro off e he
    obtain ⟨q, b⟩ := x
    rw [entriesToDescs] at he
    rcases List.mem_cons.mp he with heq | hmem
    · subst heq
      refine ⟨⟨(q, b), List.mem_cons_self _ _, rfl, rfl⟩, ?_, ?_⟩
      · simp only [List.map_cons, List.flatten_cons, List.length_append]
        omega
      · simp only [List.map_cons, List.flatten_cons, List.length_append]
        omega
    · obtain ⟨⟨pd, hpd, h1, h2⟩, h3, h4⟩ := ih (off + b.length) e hmem
      refine ⟨⟨pd, List.mem_cons_of_mem _ hpd, h1, h2⟩, ?_, ?_⟩
      · simp only [List.map_cons, List.flatten_cons, List.length_append]
        omega
      · simp only [List.map_cons, List.flatten_cons, List.length_append]
        omega

/-- Parsing one in-range record off the front of a byte stream recovers it
and continues on the remainder. -/
theorem parseEntries_cons (p : List Nat) (o l c : Nat) (tail : List Nat)
    (h1 : p.length < 2 ^ 64) (h2 : o < 2 ^ 64) (h3 : l < 2 ^ 64) :
    parseEntries (c + 1) (le64 p.length ++ (p ++ (le64 o ++ (le64 l ++ tail)))) =
      ((p, o, l) :: (parseEntries c tail).1, (parseEntries c tail).2) := by
  have f1 : (le64 p.length ++ (p ++ (le64 o ++ (le64 l ++ tail)))).take 8 =
      le64 p.length := List.take_left' (le64_length _)
  have hplen : deBytes ((le64 p.length ++ (p ++ (le64 o ++ (le64 l ++ tail)))).take 8) =
      p.length := by rw [f1, deBytes_le64 h1]
  have f2 : (le64 p.length ++ (p ++ (le64 o ++ (le64 l ++ tail)))).drop 8 =
      p ++ (le64 o ++ (le64 l ++ tail)) := List.drop_left' (le64_length _)
  have hpath : ((le64 p.length ++ (p ++ (le64 o ++ (le64 l ++ tail)))).drop 8).take
      p.length = p := by
    rw [f2]
    exact List.take_left' rfl
  have f3 : (le64 p.length ++ (p ++ (le64 o ++ (le64 l ++ tail)))).drop
      (8 + p.length) = le64 o ++ (le64 l ++ tail) := by
    rw [← List.drop_drop, f2]
    exact List.drop_left' rfl
  have hoff : deBytes (((le64 p.length ++ (p ++ (le64 o ++ (le64 l ++ tail)))).drop
      (8 + p.length)).take 8) = o := by
    rw [f3, List.take_left' (le64_length _), deBytes_le64 h2]
  have f4 : (le64 p.length ++ (p ++ (le64 o ++ (le64 l ++ tail)))).drop
      (16 + p.length) = le64 l ++ tail := by
    rw [show 16 + p.length = 8 + p.length + 8 from by omega, ← List.drop_drop, f3]
    exact List.drop_left' (le64_length _)
  have hlen : deBytes (((le64 p.length ++ (p ++ (le64 o ++ (le64 l ++ tail)))).drop
      (16 + p.length)).take 8) = l := by
    rw [f4, List.take_left' (le64_length _), deBytes_le64 h3]
  have f5 : (le64 p.length ++ (p ++ (le64 o ++ (le64 l ++ tail)))).drop
      (24 + p.length) = tail := by
    rw [show 24 + p.length = 16 + p.length + 8 from by omega, ← List.drop_drop, f4]
    exact List.drop_left' (le64_length _)
  simp only [parseEntries]
  rw [hplen, hpath, hoff, hlen, f5]

/-- Parsing as many records as were encoded recovers them exactly and
leaves the trailing bytes untouched, provided each field fits in 64 bits. -/
theorem parse_encode (es : List (List Nat × Nat × Nat)) :
    ∀ rest : List Nat,
    (∀ e ∈ es, e.1.length < 2 ^ 64 ∧ e.2.1 < 2 ^ 64 ∧ e.2.2 < 2 ^ 64) →
    parseEntries es.length (encodeEntries es ++ rest) = (es, rest) := by
  induction es with
  | nil =>
    intro rest h
    simp [encodeEntries, parseEntries]
  | cons e es ih =>
    intro rest h
    obtain ⟨p, o, l⟩ := e
    obtain ⟨h1, h2, h3⟩ := h _ (List.mem_cons_self _ _)
    have hbs : encodeEntries ((p, o, l) :: es) ++ rest =
        le64 p.length ++ (p ++ (le64 o ++ (le64 l ++ (encodeEntries es ++ rest)))) := by
      simp [encodeEntries, encodeEntry, List.append_assoc]
    rw [List.length_cons, hbs,
      parseEntries_cons p o l es.length (encodeEntries es ++ rest) h1 h2 h3,
      ih rest (fun e he => h e (List.mem_cons_of_mem _ he))]

/-- Writing a list of entries with fresh, pairwise-distinct paths succeeds
and leaves exactly the appended payloads and the sequential descriptors. -/
theorem engineWriteFiles_ok (es : List (List Nat × List Nat)) :
    ∀ w : EngineWriter,
    (∀ e ∈ es, e.1 ∉ w.index.map (fun x => x.1)) →
    (es.map Prod.fst).Nodup →
    engineWriteFiles w es =
      .ok ⟨w.stream ++ (es.map Prod.snd).flatten,
           w.index ++ entriesToDescs w.stream.length es⟩ := by
  induction es with
  | nil =>
    intro w h hn
    simp [engineWriteFiles, entriesToDescs]
  | cons e es ih =>
    intro w h hn
    obtain ⟨p, d⟩ := e
    simp only [List.map_cons] at hn
    obtain ⟨hp2, hn'⟩ := List.nodup_cons.mp hn
    have hp : p ∉ w.index.map (fun x => x.1) := h _ (List.mem_cons_self _ _)
    have hcond : ∀ e ∈ es,
        e.1 ∉ (w.index ++ [(p, w.stream.length, d.length)]).map (fun x => x.1) := by
      intro e he
      simp only [List.map_append, List.map_cons, List.map_nil, List.mem_append,
        List.mem_singleton]
      intro hor
      rcases hor with hmem | heq
      · exact h e (List.mem_cons_of_mem _ he) hmem
      · exact hp2 (by rw [← heq]; exact List.mem_map_of_mem Prod.fst he)
    simp only [engineWriteFiles, engineWriteFile, if_neg hp]
    rw [ih ⟨w.stream ++ d, w.index ++ [(p, w.stream.length, d.length)]⟩ hcond hn']
    simp [entriesToDescs, List.append_assoc, List.length_append,
      List.singleton_append]

/-- Looking a path up in the sequential descriptors of a payload region
that starts right after `pre` finds its entry, and the recorded byte range
cut out of the surrounding stream is exactly the entry's payload. -/
theorem find_slice (p d : List Nat) (es : List (List Nat × List Nat)) :
    ∀ pre rest : List Nat,
    (es.map Prod.fst).Nodup → (p, d) ∈ es →
    ∃ off len,
      (entriesToDescs pre.length es).find? (fun e => decide (e.1 = p)) =
        some (p, off, len) ∧
      ((pre ++ ((es.map Prod.snd).flatten ++ rest)).drop off).take len = d := by
  induction es with
  | nil =>
    intro pre rest hn hm
    cases hm
  | cons e es ih =>
    intro pre rest hn hm
    obtain ⟨q, b⟩ := e
    simp only [List.map_cons] at hn
    obtain ⟨hq, hn'⟩ := List.nodup_cons.mp hn
    by_cases hqp : q = p
    · subst hqp
      have hd : b = d := by
        rcases List.mem_cons.mp hm with heq | hmem
        · cases heq
          rfl
        · exact absurd (List.mem_map_of_mem Prod.fst hmem) hq
      subst hd
      refine ⟨pre.length, b.length, ?_, ?_⟩
      · rw [entriesToDescs, List.find?_cons]
        simp
      · simp only [List.map_cons, List.flatten_cons, List.append_assoc]
        rw [List.drop_left, List.take_left]
    · have hmem : (p, d) ∈ es := by
        rcases List.mem_cons.mp hm with heq | hmem
        · cases heq
          exact absurd rfl hqp
        · exact hmem
      obtain ⟨off, len, hfind, hslice⟩ := ih (pre ++ b) rest hn' hmem
      refine ⟨off, len, ?_, ?_⟩
      · rw [entriesToDescs, List.find?_cons]
        have : decide ((q, pre.length, b.length).1 = p) = false := by
          simp [hqp]
        rw [this]
        simpa [List.length_append] using hfind
      · simpa [List.map_cons, List.flatten_cons, List.append_assoc] using hslice

/-- Opening an archive produced by the pipeline decodes exactly the
descriptors the writer accumulated. -/
theorem decodeIndex_archiveBytes (entries : List (List Nat × List Nat))
    (hplen : ∀ e ∈ entries, e.1.length < 2 ^ 64)
    (hbody : ((entries.map Prod.snd).flatten).length < 2 ^ 64)
    (hcount : entries.length < 2 ^ 64) :
    decodeIndex (archiveBytes entries) = entriesToDescs 0 entries := by
  have hdl : (entriesToDescs 0 entries).length = entries.length :=
    entriesToDescs_length entries 0
  have hcnt' : (entriesToDescs 0 entries).length < 2 ^ 64 := by
    rw [hdl]
    exact hcount
  have hbounds : ∀ e ∈ entriesToDescs 0 entries,
      e.1.length < 2 ^ 64 ∧ e.2.1 < 2 ^ 64 ∧ e.2.2 < 2 ^ 64 := by
    intro e he
    obtain ⟨⟨pd, hpd, h1, h2⟩, h3, h4⟩ := mem_entriesToDescs entries 0 e he
    refine ⟨?_, ?_, ?_⟩
    · rw [h1]
      exact hplen pd hpd
    · omega
    · omega
  have hAassoc : archiveBytes entries =
      ((entries.map Prod.snd).flatten ++ encodeEntries (entriesToDescs 0 entries)) ++
        (le64 ((entries.map Prod.snd).flatten).length ++
         le64 (entriesToDescs 0 entries).length) := by
    simp [archiveBytes, List.append_assoc]
  have hAassoc3 : archiveBytes entries =
      (((entries.map Prod.snd).flatten ++ encodeEntries (entriesToDescs 0 entries)) ++
        le64 ((entries.map Prod.snd).flatten).length) ++
        le64 (entriesToDescs 0 entries).length := by
    simp [archiveBytes, List.append_assoc]
  have hAassoc2 : archiveBytes entries =
      (entries.map Prod.snd).flatten ++
        (encodeEntries (entriesToDescs 0 entries) ++
          (le64 ((entries.map Prod.snd).flatten).length ++
           le64 (entriesToDescs 0 entries).length)) := by
    simp [archiveBytes, List.append_assoc]
  have f16 : (archiveBytes entries).drop ((archiveBytes entries).length - 16) =
      le64 ((entries.map Prod.snd).flatten).length ++
        le64 (entriesToDescs 0 entries).length := by
    rw [hAassoc]
    exact List.drop_left' (by simp [List.length_append, le64_length]; omega)
  have f8 : (archiveBytes entries).drop ((archiveBytes entries).length - 8) =
      le64 (entriesToDescs 0 entries).length := by
    rw [hAassoc3]
    exact List.drop_left' (by simp [List.length_append, le64_length]; omega)
  have fdrop : (archiveBytes entries).drop ((entries.map Prod.snd).flatten).length =
      encodeEntries (entriesToDescs 0 entries) ++
        (le64 ((entries.map Prod.snd).flatten).length ++
         le64 (entriesToDescs 0 entries).length) := by
    rw [hAassoc2]
    exact List.drop_left _ _
  simp only [decodeIndex]
  rw [f16, List.take_left' (le64_length _), deBytes_le64 hbody, f8, take8_le64,
    deBytes_le64 hcnt', fdrop,
    parse_encode (entriesToDescs 0 entries) _ hbounds]

/-- C1: for every finite list of (path, bytes) pairs with pairwise-distinct
paths (and 64-bit-representable sizes), writing each pair then the index
succeeds and produces the archive bytes, and `get` on a fresh reader over
those bytes returns exactly the original bytes for every written path. -/
theorem round_trip (entries : List (List Nat × List Nat)) (p d : List Nat)
    (hnd : (entries.map Prod.fst).Nodup)
    (hplen : ∀ e ∈ entries, e.1.length < 2 ^ 64)
    (hbody : ((entries.map Prod.snd).flatten).length < 2 ^ 64)
    (hcount : entries.length < 2 ^ 64)
    (hmem : (p, d) ∈ entries) :
    writeArchive entries = .ok (archiveBytes entries) ∧
    readerGet (archiveBytes entries) p = .returns (some d) := by
  constructor
  · have hw := engineWriteFiles_ok entries ⟨[], []⟩ (by intro e he; simp) hnd
    rw [writeArchive, hw]
    simp [Except.map, engineWriteIndex, archiveBytes]
  · have hdecode := decodeIndex_archiveBytes entries hplen hbody hcount
    obtain ⟨off, len, hfind, hslice⟩ :=
      find_slice p d entries []
        (encodeEntries (entriesToDescs 0 entries) ++
          (le64 ((entries.map Prod.snd).flatten).length ++
           le64 (entriesToDescs 0 entries).length))
        hnd hmem
    simp only [List.length_nil] at hfind
    have hslice' : ((archiveBytes entries).drop off).take len = d := by
      have hA : archiveBytes entries =
          ([] : List Nat) ++ ((entries.map Prod.snd).flatten ++
            (encodeEntries (entriesToDescs 0 entries) ++
              (le64 ((entries.map Prod.snd).flatten).length ++
               le64 (entriesToDescs 0 entries).length))) := by
        simp [archiveBytes, List.append_assoc]
      rw [hA]
      exact hslice
    simp [readerGet, hdecode, engineGet, hfind, hslice', pyGet, pak_reader_get]

/-- C1 witness: a two-entry archive round-trips its first entry. -/
theorem round_trip_witness :
    (([([1], [2, 3]), ([4, 5], [6])].map Prod.fst).Nodup) ∧
    writeArchive [([1], [2, 3]), ([4, 5], [6])] =
      .ok (archiveBytes [([1], [2, 3]), ([4, 5], [6])]) ∧
    readerGet (archiveBytes [([1], [2, 3]), ([4, 5], [6])]) [1] =
      .returns (some [2, 3]) :=
  have H := round_trip [([1], [2, 3]), ([4, 5], [6])] [1] [2, 3]
    (by decide) (by decide) (by decide) (by decide) (by decide)
  ⟨by decide, H.1, H.2⟩
